import Mathlib

/-!
# Flappy-bird game loop (`Source.cpp`): shallow embedding and verification

The C++ program keeps its whole state in the fields of `class Game`. Here the
state is an explicit record threaded through every method.

Modelling conventions.
* `float` values are taken as exact rationals. Every constant of the program
  (`0.5`, `-10`, `-2`, `800`, `600`, ...) is a dyadic rational, so the float
  arithmetic of the program is exact for as long as magnitudes stay below
  `2^23`.
* `int` values are integers kept in the range of a 32-bit `int`: `score++`
  wraps around at `INT_MAX` as the code compiled by g++ does (the overflow
  is undefined behaviour in C++).
* The SFML classes `sf::Vector2f`, `sf::FloatRect`, `sf::Texture`,
  `sf::Sprite` are modelled by the part of their behaviour the program
  uses: a sprite with origin `(0,0)` and no rotation.
* What the program reads from outside (the value of `rand()`, whether an
  image or the ledger file can be opened, the polled window events) is an
  explicit input of the method that reads it.
* `std::vector::erase(begin())` on an empty vector is undefined behaviour:
  the model returns `none` there.
-/

namespace Flappy

/-! ## Constants of `Source.cpp` -/

def windowWidth : Int := 800
def windowHeight : Int := 600
def gravity : ℚ := 1 / 2
def jumpVelocity : ℚ := -10
def pipeGap : Int := 200

/-! ## The SFML value types -/

/-- Value type `sf::Vector2f`. -/
structure Vector2f where
  x : ℚ
  y : ℚ
  deriving DecidableEq

/-- Value type `sf::FloatRect`. -/
structure FloatRect where
  left : ℚ
  top : ℚ
  width : ℚ
  height : ℚ
  deriving DecidableEq

/-- Method `sf::Rect::intersects` of SFML 2: the rectangles overlap in an
area of positive size (rectangles of negative size are normalised first). -/
def FloatRect.intersects (r1 r2 : FloatRect) : Bool :=
  let r1MinX := min r1.left (r1.left + r1.width)
  let r1MaxX := max r1.left (r1.left + r1.width)
  let r1MinY := min r1.top (r1.top + r1.height)
  let r1MaxY := max r1.top (r1.top + r1.height)
  let r2MinX := min r2.left (r2.left + r2.width)
  let r2MaxX := max r2.left (r2.left + r2.width)
  let r2MinY := min r2.top (r2.top + r2.height)
  let r2MaxY := max r2.top (r2.top + r2.height)
  let interLeft := max r1MinX r2MinX
  let interTop := max r1MinY r2MinY
  let interRight := min r1MaxX r2MaxX
  let interBottom := min r1MaxY r2MaxY
  decide (interLeft < interRight) && decide (interTop < interBottom)

/-- Size in pixels of an `sf::Texture`; a default-constructed texture is
`0 x 0`. -/
structure Texture where
  width : Nat
  height : Nat
  deriving DecidableEq

/-- The part of `sf::Sprite` the program uses: position, scale and the size
of the texture rectangle. -/
structure Sprite where
  position : Vector2f
  scale : Vector2f
  texW : Nat
  texH : Nat
  deriving DecidableEq

/-- A default-constructed `sf::Sprite`. -/
def Sprite.default : Sprite :=
  { position := ⟨0, 0⟩, scale := ⟨1, 1⟩, texW := 0, texH := 0 }

/-- Method `sprite.setTexture(t)` on a sprite that has no texture yet (the
only use in the program): the texture rectangle becomes the whole texture. -/
def Sprite.setTexture (s : Sprite) (t : Texture) : Sprite :=
  { s with texW := t.width, texH := t.height }

/-- Method `sprite.setScale(sx, sy)`. -/
def Sprite.setScale (s : Sprite) (sx sy : ℚ) : Sprite :=
  { s with scale := ⟨sx, sy⟩ }

/-- Method `sprite.setPosition(x, y)`. -/
def Sprite.setPosition (s : Sprite) (x y : ℚ) : Sprite :=
  { s with position := ⟨x, y⟩ }

/-- Method `sprite.getPosition()`. -/
def Sprite.getPosition (s : Sprite) : Vector2f := s.position

/-- Method `sprite.move(dx, dy)`. -/
def Sprite.move (s : Sprite) (dx dy : ℚ) : Sprite :=
  { s with position := ⟨s.position.x + dx, s.position.y + dy⟩ }

/-- Method `sprite.getGlobalBounds()`: the bounding box of the texture
rectangle `(0, 0, texW, texH)` scaled and then translated to the position. -/
def Sprite.getGlobalBounds (s : Sprite) : FloatRect :=
  let x0 := s.position.x
  let x1 := s.position.x + s.scale.x * (s.texW : ℚ)
  let y0 := s.position.y
  let y1 := s.position.y + s.scale.y * (s.texH : ℚ)
  { left := min x0 x1, top := min y0 y1,
    width := max x0 x1 - min x0 x1, height := max y0 y1 - min y0 y1 }

/-! ## The data of the game -/

/-- Record `struct Bird`. -/
structure Bird where
  sprite : Sprite
  velocity : Vector2f
  score : Int
  deriving DecidableEq

/-- A default-constructed `Bird`. -/
def Bird.default : Bird :=
  { sprite := Sprite.default, velocity := ⟨0, 0⟩, score := 0 }

/-- The fields of `class Game` the simulation uses (`windowOpen` stands for
`window.isOpen()`, `birdTexture` for the size of the member texture),
together with the content of the file `highscores.txt` (`none` when the
file does not exist). -/
structure Game where
  windowOpen : Bool
  birdTexture : Texture
  birds : List Bird
  pipes : List Sprite
  highScores : List (String × Int)
  ledgerFile : Option (List Char)
  deriving DecidableEq

/-! ## Input read from outside the program -/

/-- The key codes of `sf::Keyboard` the program tells apart. -/
inductive Key where
  | Up
  | W
  | Other
  deriving DecidableEq

/-- The kinds of `sf::Event` the program tells apart. -/
inductive Event where
  | Closed
  | KeyPressed (code : Key)
  | Other
  deriving DecidableEq

/-- What one call of `update` reads from outside: the value returned by
`rand()`, the outcome of loading `pipe1.png` and `pipe2.png` (`none` when
`loadFromFile` fails), and whether the ledger file can be opened for
writing and for reading. -/
structure Env where
  rand : Int
  pipe1 : Option Texture
  pipe2 : Option Texture
  canWrite : Bool
  canRead : Bool
  deriving DecidableEq

/-! ## `Game::processEvents` -/

/-- The body of one of the two `for (auto& bird : birds)` loops of
`processEvents`, for the key `k` the loop tests. -/
def jumpOn (k : Key) (event : Event) (bird : Bird) : Bird :=
  if event = Event.KeyPressed k ∧ bird.sprite.getPosition.y > 0 then
    { bird with velocity := ⟨bird.velocity.x, jumpVelocity⟩ }
  else bird

/-- The body of the `while (window.pollEvent(event))` loop of
`processEvents`, for one polled event. -/
def handleEvent (g : Game) (event : Event) : Game :=
  let g := if event = Event.Closed then { g with windowOpen := false } else g
  let g := { g with birds := g.birds.map (jumpOn Key.Up event) }
  { g with birds := g.birds.map (jumpOn Key.W event) }

/-- Method `Game::processEvents`, for the events polled in this frame. -/
def processEvents (g : Game) (events : List Event) : Game :=
  events.foldl handleEvent g

/-! ## The score ledger: `saveHighScores`, `loadHighScores` -/

/-- The decimal digit character of `d < 10`. -/
def digitChar (d : Nat) : Char := Char.ofNat (48 + d)

/-- Decimal text of a natural number, most significant digit first. -/
def natToChars (n : Nat) : List Char :=
  if n = 0 then ['0'] else ((Nat.digits 10 n).reverse).map digitChar

/-- Text that `outputFile << score` writes for an `int`. -/
def intToChars (i : Int) : List Char :=
  if i < 0 then '-' :: natToChars i.natAbs else natToChars i.natAbs

/-- The text of one pass of the loop of `saveHighScores`:
`outputFile << score.first << " " << score.second << "\n"`. -/
def entryText (score : String × Int) : List Char :=
  score.1.data ++ [' '] ++ intToChars score.2 ++ ['\n']

/-- The text written by the loop of `saveHighScores`. -/
def ledgerText (highScores : List (String × Int)) : List Char :=
  (highScores.map entryText).flatten

/-- Method `Game::saveHighScores`: when the file opens it is truncated and
rewritten from `highScores`; otherwise nothing changes. -/
def saveHighScores (g : Game) (e : Env) : Game :=
  if e.canWrite then { g with ledgerFile := some (ledgerText g.highScores) } else g

/-- Function `isspace` of the "C" locale. -/
def isSpace (c : Char) : Bool :=
  c = ' ' || c = '\t' || c = '\n' || c = '\x0b' || c = '\x0c' || c = '\r'

/-- Function `isdigit`. -/
def isDigit (c : Char) : Bool := decide ('0' ≤ c) && decide (c ≤ '9')

/-- Extraction `stream >> name` into a `std::string`: skip white space, then
take the characters up to the next white space; fails at end of input. -/
def readString (s : List Char) : Option (String × List Char) :=
  let s := s.dropWhile isSpace
  if s = [] then none
  else some (String.mk (s.takeWhile (fun c => !isSpace c)), s.dropWhile (fun c => !isSpace c))

/-- Value of a run of decimal digits. -/
def digitsValue (ds : List Char) : Nat :=
  ds.foldl (fun acc c => 10 * acc + (c.toNat - 48)) 0

/-- The optional sign in front of a number: whether it is `-`, and the
input after it. -/
def readSign (s : List Char) : Bool × List Char :=
  match s with
  | '-' :: t => (true, t)
  | '+' :: t => (false, t)
  | _ => (false, s)

/-- Extraction `stream >> score` into an `int`: skip white space, an
optional sign, then one or more decimal digits; fails when there is no
digit or the value does not fit an `int`. -/
def readInt (s : List Char) : Option (Int × List Char) :=
  let s := s.dropWhile isSpace
  let neg := (readSign s).1
  let s := (readSign s).2
  let ds := s.takeWhile isDigit
  let v : Int := if neg then -(digitsValue ds : Int) else (digitsValue ds : Int)
  if ds = [] then none
  else if v < -2147483648 ∨ 2147483647 < v then none
  else some (v, s.dropWhile isDigit)

/-- The loop `while (inputFile >> name >> score) highScores.push_back(...)`
of `loadHighScores`, for at most `fuel` passes; it returns the entries pushed. -/
def readEntries : Nat → List Char → List (String × Int)
  | 0, _ => []
  | fuel + 1, s =>
    match readString s with
    | none => []
    | some (name, s1) =>
      match readInt s1 with
      | none => []
      | some (score, s2) => (name, score) :: readEntries fuel s2

/-- The entries the loop of `loadHighScores` pushes for a file of content
`txt`. A pass that pushes an entry consumes at least one character, so
`txt.length + 1` passes reach the end of the loop. -/
def fileEntries (txt : List Char) : List (String × Int) :=
  readEntries (txt.length + 1) txt

/-- Method `Game::loadHighScores`: when the file opens, every entry read is
appended to `highScores`. -/
def loadHighScores (g : Game) (e : Env) : Game :=
  if e.canRead then
    match g.ledgerFile with
    | none => g
    | some txt => { g with highScores := g.highScores ++ fileEntries txt }
  else g

/-! ## `Game::resetGame` -/

/-- Method `Game::resetGame`. -/
def resetGame (g : Game) (e : Env) : Game :=
  let g := { g with birds := [] }
  let g := { g with pipes := [] }
  let g := loadHighScores g e
  let bird1 : Bird :=
    { Bird.default with
      sprite := (Bird.default.sprite.setTexture g.birdTexture).setPosition
        ((windowWidth / 4 : Int) : ℚ) ((windowHeight / 2 : Int) : ℚ)
      velocity := ⟨0, 0⟩
      score := 0 }
  let g := { g with birds := g.birds ++ [bird1] }
  let bird2 : Bird :=
    { Bird.default with
      sprite := (Bird.default.sprite.setTexture g.birdTexture).setPosition
        ((windowWidth * 3 / 4 : Int) : ℚ) ((windowHeight / 2 : Int) : ℚ)
      velocity := ⟨0, 0⟩
      score := 0 }
  { g with birds := g.birds ++ [bird2] }

/-! ## `Game::spawnPipe` -/

/-- The value `rand() % (windowHeight - pipeGap - 200) + 100` of `spawnPipe`
(`%` of C++ truncates towards zero). -/
def pipeHeight (r : Int) : Int :=
  r.tmod (windowHeight - pipeGap - 200) + 100

/-- The sprite `pipeUp` built by `spawnPipe` from the loaded texture. -/
def pipeUp (t : Texture) (r : Int) : Sprite :=
  let s := Sprite.default.setTexture t
  let s := s.setScale 1 (-1)
  s.setPosition (windowWidth : ℚ) ((pipeHeight r : ℚ) - s.getGlobalBounds.height)

/-- The sprite `pipeDown` built by `spawnPipe` from the loaded texture. -/
def pipeDown (t : Texture) (r : Int) : Sprite :=
  let s := Sprite.default.setTexture t
  s.setPosition (windowWidth : ℚ) ((pipeHeight r + pipeGap : Int) : ℚ)

/-- Method `Game::spawnPipe`, on the vector `pipes`: when `pipe1.png` fails
to load nothing is pushed, when only `pipe2.png` fails the upper piece
alone is pushed. -/
def spawnPipe (e : Env) (pipes : List Sprite) : List Sprite :=
  match e.pipe1 with
  | none => pipes
  | some t1 =>
    let pipes := pipes ++ [pipeUp t1 e.rand]
    match e.pipe2 with
    | none => pipes
    | some t2 => pipes ++ [pipeDown t2 e.rand]

/-! ## `Game::update` -/

/-- The body of the first loop of `update`: gravity, move, clamp at the top. -/
def updateBird (bird : Bird) : Bird :=
  let velocity : Vector2f := ⟨bird.velocity.x, bird.velocity.y + gravity⟩
  let sprite := bird.sprite.move velocity.x velocity.y
  let sprite :=
    if sprite.getPosition.y < 0 then sprite.setPosition sprite.getPosition.x 0 else sprite
  { bird with velocity := velocity, sprite := sprite }

/-- Call `pipes.erase(pipes.begin())`; undefined on an empty vector. -/
def eraseBegin (pipes : List Sprite) : Option (List Sprite) :=
  match pipes with
  | [] => none
  | _ :: rest => some rest

/-- The second loop of `update`. `done` holds the pipes already moved in
this tick and `todo` those still to visit. The visited pipe moves left by
2; when it is then off the left edge the first two elements of the vector
are erased and the loop is left. -/
def scrollPipes (done : List Sprite) : List Sprite → Option (List Sprite)
  | [] => some done
  | pipe :: todo =>
    let pipe := pipe.move (-2) 0
    if pipe.getPosition.x < -pipe.getGlobalBounds.width then
      (eraseBegin (done ++ pipe :: todo)).bind eraseBegin
    else scrollPipes (done ++ [pipe]) todo

/-- Test `birdBounds.intersects(pipeBounds)` of `checkCollisions`, for some
bird and some pipe. -/
def collides (g : Game) : Bool :=
  g.birds.any fun bird =>
    g.pipes.any fun pipe =>
      bird.sprite.getGlobalBounds.intersects pipe.getGlobalBounds

/-- Method `Game::checkCollisions`: at the first intersection found the
ledger is saved and the game reset. -/
def checkCollisions (g : Game) (e : Env) : Game :=
  if collides g then resetGame (saveHighScores g e) e else g

/-- Method `Game::pipeCounted`. -/
def pipeCounted (pipes : List Sprite) (bird : Bird) : Bool :=
  pipes.any fun pipe =>
    decide (pipe.getPosition.x + pipe.getGlobalBounds.width < bird.sprite.getPosition.x) &&
      !(pipe.getGlobalBounds.intersects bird.sprite.getGlobalBounds)

/-- The value of an `int` computation whose exact result is `i`: the
two's complement wrap-around into `[-2^31, 2^31 - 1]`. -/
def wrapInt (i : Int) : Int :=
  (i + 2147483648) % 4294967296 - 2147483648

/-- Method `Game::updateScores`; `bird.score++` is an `int` increment. -/
def updateScores (g : Game) : Game :=
  { g with birds := g.birds.map fun bird =>
      if pipeCounted g.pipes bird then { bird with score := wrapInt (bird.score + 1) }
      else bird }

/-- The state inside `update` when `checkCollisions` is called: the birds
have moved, `spawnPipe` and the scroll loop have run; `none` when an
`erase` meets an empty vector. -/
def afterScroll (g : Game) (e : Env) : Option Game :=
  let g := { g with birds := g.birds.map updateBird }
  let g := { g with pipes := spawnPipe e g.pipes }
  match scrollPipes [] g.pipes with
  | none => none
  | some pipes => some { g with pipes := pipes }

/-- Method `Game::update`; `none` when an `erase` meets an empty vector. -/
def update (g : Game) (e : Env) : Option Game :=
  let g := { g with birds := g.birds.map updateBird }
  let g := { g with pipes := spawnPipe e g.pipes }
  match scrollPipes [] g.pipes with
  | none => none
  | some pipes =>
    let g := { g with pipes := pipes }
    let g := checkCollisions g e
    some (updateScores g)

/-! ## `Game::render` and `Game::run` -/

/-- Method `Game::drawScores`, for what it changes in the state: the call of
`std::sort` orders `highScores` by decreasing score. `std::sort` leaves the
order of entries of equal score open; they keep their order here. -/
def drawScores (g : Game) : Game :=
  { g with highScores := g.highScores.insertionSort fun a b => a.2 ≥ b.2 }

/-- Method `Game::render`, for what it changes in the state. -/
def render (g : Game) : Game := drawScores g

/-- One call made by the loop of `run`: `processEvents` with the events it
polls, `update` with what it reads from outside, or `render`. -/
inductive Action where
  | events (polled : List Event)
  | tick (e : Env)
  | draw

/-- The effect of one call made by `run`. -/
def step (g : Game) : Action → Option Game
  | Action.events polled => some (processEvents g polled)
  | Action.tick e => update g e
  | Action.draw => some (render g)

/-- A sequence of calls of `processEvents`, `update` and `render`, in any
order; the loop of `run` makes them in the order events, tick, draw. -/
def exec (g : Game) : List Action → Option Game
  | [] => some g
  | a :: rest =>
    match step g a with
    | none => none
    | some g => exec g rest

/-- What one pass of the loop of `run` reads from outside: the events polled
by `processEvents` and the input of `update`. -/
structure Frame where
  polled : List Event
  e : Env

/-- Method `Game::run`, for the given passes of its loop: while the window is
open, `processEvents(); update(); render();`. -/
def run (g : Game) : List Frame → Option Game
  | [] => some g
  | f :: rest =>
    if g.windowOpen then
      match update (processEvents g f.polled) f.e with
      | none => none
      | some g => run (render g) rest
    else some g

/-! ## The pipe track as a sequence of pairs -/

/-- A pipe pair on the track: the textures and the `rand()` value it was
spawned with, and the x position both pieces have scrolled to. -/
structure Pair where
  t1 : Texture
  t2 : Texture
  r : Int
  x : ℚ

/-- The upper piece of a pair: the sprite `pipeUp` of `spawnPipe`, scrolled
to `p.x`. -/
def Pair.up (p : Pair) : Sprite :=
  (pipeUp p.t1 p.r).setPosition p.x (pipeUp p.t1 p.r).getPosition.y

/-- The lower piece of a pair: the sprite `pipeDown` of `spawnPipe`, scrolled
to `p.x`. -/
def Pair.down (p : Pair) : Sprite :=
  (pipeDown p.t2 p.r).setPosition p.x (pipeDown p.t2 p.r).getPosition.y

/-- The pair one step of the scroll further left. -/
def Pair.shift (p : Pair) : Pair := { p with x := p.x - 2 }

/-- The `pipes` vector of a track of pairs: upper piece, lower piece, pair
after pair in spawn order. -/
def pieces : List Pair → List Sprite
  | [] => []
  | p :: rest => p.up :: p.down :: pieces rest

/-- The pair `spawnPipe` pushes when both images load. -/
def Pair.spawned (t1 t2 : Texture) (r : Int) : Pair :=
  { t1 := t1, t2 := t2, r := r, x := (windowWidth : ℚ) }

/-- Both pipe images load in this call of `spawnPipe`. -/
def LoadsOk (e : Env) : Prop := e.pipe1.isSome = true ∧ e.pipe2.isSome = true

instance (e : Env) : Decidable (LoadsOk e) := by
  unfold LoadsOk
  infer_instance

/-- Both pipe images load in this call of `spawnPipe`, with width `w`. -/
def SameWidth (w : Nat) (e : Env) : Prop :=
  ∃ t1 t2, e.pipe1 = some t1 ∧ e.pipe2 = some t2 ∧ t1.width = w ∧ t2.width = w

/-- In this call `spawnPipe` pushes nothing (`pipe1.png` does not load) or
a whole pair whose two pieces have width `w`. -/
def WholeSpawn (w : Nat) (e : Env) : Prop :=
  e.pipe1 = none ∨ SameWidth w e

/-- The same pairs in the same order, whatever their positions. -/
def SamePairs (a b : List Pair) : Prop :=
  List.Forall₂ (fun p q => p.t1 = q.t1 ∧ p.t2 = q.t2 ∧ p.r = q.r) a b

/-- Whether the call is a call of `update`. -/
def isTick : Action → Bool
  | Action.tick _ => true
  | _ => false

/-- The number of calls of `update` in a sequence of calls. -/
def ticks (acts : List Action) : Nat := acts.countP isTick

/-- The track invariant: every pair has pieces of width `w`, has not yet
crossed the left edge, lies at or left of the spawn position, and the pairs
are in order of position. -/
structure TrackOk (w : Nat) (l : List Pair) : Prop where
  width : ∀ p ∈ l, p.t1.width = w ∧ p.t2.width = w
  live : ∀ p ∈ l, 0 ≤ p.x + (w : ℚ)
  bound : ∀ p ∈ l, p.x ≤ (windowWidth : ℚ)
  sorted : l.Pairwise fun a b => a.x ≤ b.x

/-- The scroll loop of `update` on a track of whole pairs of width `w`: the
oldest pair goes when the move takes its right edge below 0, otherwise every
pair moves. -/
def retireHead (w : Nat) : List Pair → List Pair
  | [] => []
  | p :: rest => if p.x - 2 + (w : ℚ) < 0 then rest else (p :: rest).map Pair.shift

/-- The scores of a state lie in `[0, k]`. -/
def ScoresUpTo (k : Int) (g : Game) : Prop :=
  ∀ b ∈ g.birds, 0 ≤ b.score ∧ b.score ≤ k

/-- Every bird of the state is at or below the top edge. -/
def BirdsInside (g : Game) : Prop :=
  ∀ b ∈ g.birds, 0 ≤ b.sprite.getPosition.y

/-- A ledger entry the file format can carry: a name that is not empty and
has no white space, and a score that is a non-negative `int`. -/
def ValidEntry (p : String × Int) : Prop :=
  p.1.data ≠ [] ∧ (∀ c ∈ p.1.data, isSpace c = false) ∧ 0 ≤ p.2 ∧ p.2 ≤ 2147483647

instance (p : String × Int) : Decidable (ValidEntry p) := by
  unfold ValidEntry
  infer_instance

/-! ## Concrete inputs -/

/-- The pipe image used in the concrete runs, 52 x 320 pixels. -/
def pipeImage : Texture := ⟨52, 320⟩

/-- A fresh `Game` object before the constructor calls `resetGame`. The
member `birdTexture` is never loaded by the program (`main` loads a local
variable of the same name), so it is the default `0 x 0` texture. -/
def gStart : Game :=
  { windowOpen := true, birdTexture := ⟨0, 0⟩, birds := [], pipes := [], highScores := [],
    ledgerFile := none }

/-- Outside input of a tick in which both pipe images load. -/
def eLoad : Env :=
  { rand := 1234, pipe1 := some pipeImage, pipe2 := some pipeImage, canWrite := true,
    canRead := true }

/-- Outside input of a tick in which no pipe image loads. -/
def eNoLoad : Env :=
  { rand := 1234, pipe1 := none, pipe2 := none, canWrite := true, canRead := true }

/-- Outside input of a tick in which `pipe1.png` loads and `pipe2.png` does
not. -/
def eUpOnly : Env :=
  { rand := 1234, pipe1 := some pipeImage, pipe2 := none, canWrite := true, canRead := true }

/-- A round of 426 ticks: both images load in the first two ticks and in
none after, so two pairs are spawned in the whole round. -/
def actsTwoPairs : List Action :=
  [Action.tick eLoad, Action.tick eLoad] ++ List.replicate 424 (Action.tick eNoLoad)

/-- A bird of the concrete states: the `0 x 0` sprite at `(x, y)`. -/
def birdAt (x y vy : ℚ) (score : Int) : Bird :=
  { sprite := (Sprite.default.setTexture ⟨0, 0⟩).setPosition x y, velocity := ⟨0, vy⟩,
    score := score }

/-- The state after the round `actsTwoPairs`: the first pair stands with its
right edge on the left boundary, the second pair 2 to its right. -/
def gTwoPairs : Game :=
  { windowOpen := true, birdTexture := ⟨0, 0⟩,
    birds := [birdAt 200 (91551 / 2) 213 100, birdAt 600 (91551 / 2) 213 300],
    pipes := pieces [⟨pipeImage, pipeImage, 1234, -52⟩, ⟨pipeImage, pipeImage, 1234, -50⟩],
    highScores := [], ledgerFile := none }

/-- A round of 426 ticks in which only the first tick spawns, and only the
upper piece: `pipe2.png` fails to load. -/
def actsOddPiece : List Action :=
  Action.tick eUpOnly :: List.replicate 425 (Action.tick eNoLoad)

/-- The state after the round `actsOddPiece`: the lone upper piece stands
with its right edge on the left boundary. -/
def gOddPiece : Game :=
  { windowOpen := true, birdTexture := ⟨0, 0⟩,
    birds := [birdAt 200 (91551 / 2) 213 100, birdAt 600 (91551 / 2) 213 300],
    pipes := [Pair.up ⟨pipeImage, pipeImage, 1234, -52⟩],
    highScores := [], ledgerFile := none }

/-- A state with two birds in flight, the second on the top edge. -/
def gJump : Game :=
  { windowOpen := true, birdTexture := ⟨0, 0⟩,
    birds := [birdAt 200 300 7 4, birdAt 600 0 3 1],
    pipes := [], highScores := [], ledgerFile := none }

/-- A round of 34 ticks: one pair is spawned in the first, and the Up key is
pressed before each of the 33 others. -/
def actsJump : List Action :=
  Action.tick eLoad ::
    (List.replicate 33 [Action.events [Event.KeyPressed Key.Up], Action.tick eNoLoad,
      Action.draw]).flatten

/-- Whether the call is a tick in which `spawnPipe` pushes a whole pair. -/
def spawnsPair : Action → Bool
  | Action.tick e => e.pipe1.isSome && e.pipe2.isSome
  | _ => false

/-- The state inside `update gTwoPairs eNoLoad` when `checkCollisions` is
called: the birds have moved, the first pair is retired. -/
def gTwoPairsMoved : Game :=
  { gTwoPairs with
    birds := [birdAt 200 45989 (427 / 2) 100, birdAt 600 45989 (427 / 2) 300],
    pipes := pieces [⟨pipeImage, pipeImage, 1234, -50⟩] }

/-- A ledger of three entries. -/
def gLedger : Game :=
  { gStart with highScores := [("ann", 7), ("bob", 0), ("cy", 2147483647)] }

/-! # Theorems -/

/-! ## What each method leaves unchanged -/

theorem jumpOn_sprite (k : Key) (ev : Event) (b : Bird) : (jumpOn k ev b).sprite = b.sprite := by
  unfold jumpOn; split <;> rfl

theorem handleEvent_birds (g : Game) (ev : Event) :
    (handleEvent g ev).birds = g.birds.map (fun b => jumpOn Key.W ev (jumpOn Key.Up ev b)) := by
  unfold handleEvent
  by_cases h : ev = Event.Closed <;> simp [h, List.map_map, Function.comp_def]

theorem handleEvent_pipes (g : Game) (ev : Event) : (handleEvent g ev).pipes = g.pipes := by
  unfold handleEvent
  by_cases h : ev = Event.Closed <;> simp [h]

theorem processEvents_pipes (g : Game) (evs : List Event) :
    (processEvents g evs).pipes = g.pipes := by
  unfold processEvents
  induction evs generalizing g with
  | nil => rfl
  | cons ev evs ih => rw [List.foldl_cons, ih, handleEvent_pipes]

theorem loadHighScores_birds (g : Game) (e : Env) : (loadHighScores g e).birds = g.birds := by
  unfold loadHighScores
  split
  · split <;> rfl
  · rfl

theorem loadHighScores_pipes (g : Game) (e : Env) : (loadHighScores g e).pipes = g.pipes := by
  unfold loadHighScores
  split
  · split <;> rfl
  · rfl

theorem loadHighScores_birdTexture (g : Game) (e : Env) :
    (loadHighScores g e).birdTexture = g.birdTexture := by
  unfold loadHighScores
  split
  · split <;> rfl
  · rfl

theorem resetGame_pipes (g : Game) (e : Env) : (resetGame g e).pipes = [] := by
  simp [resetGame, loadHighScores_pipes]

theorem resetGame_birds (g : Game) (e : Env) :
    (resetGame g e).birds =
      [ { sprite := (Sprite.default.setTexture g.birdTexture).setPosition 200 300,
          velocity := ⟨0, 0⟩, score := 0 },
        { sprite := (Sprite.default.setTexture g.birdTexture).setPosition 600 300,
          velocity := ⟨0, 0⟩, score := 0 } ] := by
  simp [resetGame, loadHighScores_birds, loadHighScores_birdTexture, Bird.default,
    windowWidth, windowHeight]


theorem updateScores_pipes (g : Game) : (updateScores g).pipes = g.pipes := rfl

theorem checkCollisions_pipes (g : Game) (e : Env) :
    (checkCollisions g e).pipes = g.pipes ∨ (checkCollisions g e).pipes = [] := by
  unfold checkCollisions
  split
  · exact Or.inr (resetGame_pipes _ _)
  · exact Or.inl rfl

/-! ## The state inside `update` -/

theorem update_eq_afterScroll (g : Game) (e : Env) :
    update g e = (afterScroll g e).map fun m => updateScores (checkCollisions m e) := by
  unfold update afterScroll
  simp only
  split <;> rfl

theorem afterScroll_birds (g : Game) (e : Env) (m : Game) (h : afterScroll g e = some m) :
    m.birds = g.birds.map updateBird ∧ m.birdTexture = g.birdTexture ∧
      m.highScores = g.highScores ∧ m.ledgerFile = g.ledgerFile := by
  unfold afterScroll at h
  simp only at h
  split at h
  · exact absurd h (by simp)
  · simp only [Option.some.injEq] at h
    subst h
    exact ⟨rfl, rfl, rfl, rfl⟩

/-! ## Birds with the empty texture never collide -/

/-- The loop of `run` is one of the sequences of calls `exec` ranges over. -/
theorem run_is_exec (frames : List Frame) : ∀ g : Game,
    ∃ acts, run g frames = exec g acts ∧
      ∀ e, Action.tick e ∈ acts → ∃ f ∈ frames, f.e = e := by
  induction frames with
  | nil => intro g; exact ⟨[], rfl, by simp⟩
  | cons f rest ih =>
    intro g
    by_cases hw : g.windowOpen = true
    · cases hu : update (processEvents g f.polled) f.e with
      | none =>
        refine ⟨[Action.events f.polled, Action.tick f.e], ?_, ?_⟩
        · simp [run, exec, step, hw, hu]
        · intro e he
          simp only [List.mem_cons, reduceCtorEq, Action.tick.injEq, List.mem_singleton,
            List.not_mem_nil, false_or, or_false] at he
          exact ⟨f, List.mem_cons_self _ _, he.symm⟩
      | some g1 =>
        obtain ⟨acts, hr, ht⟩ := ih (render g1)
        refine ⟨Action.events f.polled :: Action.tick f.e :: Action.draw :: acts, ?_, ?_⟩
        · simp [run, exec, step, hw, hu, hr]
        · intro e he
          simp only [List.mem_cons, reduceCtorEq, Action.tick.injEq, false_or] at he
          rcases he with he | he
          · exact ⟨f, List.mem_cons_self _ _, he.symm⟩
          · obtain ⟨f', hf', hfe⟩ := ht e he
            exact ⟨f', List.mem_cons_of_mem _ hf', hfe⟩
    · exact ⟨[], by simp [run, exec, hw], by simp⟩

/-! ## Runs used as concrete inputs -/

theorem reach_twoPairs : exec (resetGame gStart eLoad) actsTwoPairs = some gTwoPairs := by
  decide!

theorem reach_oddPiece : exec (resetGame gStart eLoad) actsOddPiece = some gOddPiece := by
  decide!

/-! ## Spawn band (C6) -/

/-- C6. Spawn band: for every non-negative value `r` of `rand()`, the gap
offset `pipeHeight` computed by `spawnPipe` lies in `[100, 600 - 100 - 200]`,
so the gap `[pipeHeight, pipeHeight + pipeGap]` lies in `[100, 500]` and
inside the height of the window. -/
theorem spawn_band (r : Int) (hr : 0 ≤ r) :
    100 ≤ pipeHeight r ∧ pipeHeight r ≤ windowHeight - 100 - pipeGap ∧
      windowHeight - 100 - pipeGap = 300 ∧
      pipeHeight r + pipeGap ≤ 500 ∧ 0 ≤ pipeHeight r ∧
      pipeHeight r + pipeGap ≤ windowHeight := by
  have h : pipeHeight r = r % 200 + 100 := by
    unfold pipeHeight windowHeight pipeGap
    rw [Int.tmod_eq_emod hr (by norm_num)]
    norm_num
  have h1 : 0 ≤ r % 200 := Int.emod_nonneg r (by norm_num)
  have h2 : r % 200 < 200 := Int.emod_lt_of_pos r (by norm_num)
  rw [h]
  unfold windowHeight pipeGap
  omega

theorem spawn_band_witness :
    (0 : Int) ≤ 1234 ∧ pipeHeight 1234 = 134 ∧
      (100 ≤ pipeHeight 1234 ∧ pipeHeight 1234 ≤ windowHeight - 100 - pipeGap ∧
      windowHeight - 100 - pipeGap = 300 ∧
      pipeHeight 1234 + pipeGap ≤ 500 ∧ 0 ≤ pipeHeight 1234 ∧
      pipeHeight 1234 + pipeGap ≤ windowHeight) :=
  ⟨by decide, by decide, spawn_band 1234 (by decide)⟩

/-! ## Jump override (C4) -/

theorem jumpOn_score (k : Key) (ev : Event) (b : Bird) : (jumpOn k ev b).score = b.score := by
  unfold jumpOn; split <;> rfl

theorem jump_press (k : Key) (hk : k = Key.Up ∨ k = Key.W) (b : Bird) :
    jumpOn Key.W (Event.KeyPressed k) (jumpOn Key.Up (Event.KeyPressed k) b) =
      if b.sprite.getPosition.y > 0 then { b with velocity := ⟨b.velocity.x, jumpVelocity⟩ }
      else b := by
  rcases hk with rfl | rfl
  · by_cases h : b.sprite.getPosition.y > 0 <;> simp [jumpOn, h]
  · by_cases h : b.sprite.getPosition.y > 0 <;> simp [jumpOn, h]

/-- C4. Jump override: when `processEvents` handles a press of Up or of W,
every bird whose y position is above 0 gets the vertical velocity
`jumpVelocity = -10` whatever its velocity was, every bird whose y position
is 0 keeps its velocity, and position (the sprite) and score of every bird
are unchanged. -/
theorem jump_override (g : Game) (k : Key) (hk : k = Key.Up ∨ k = Key.W) :
    (processEvents g [Event.KeyPressed k]).birds.length = g.birds.length ∧
    ∀ (i : Nat) (b b' : Bird), g.birds[i]? = some b →
      (processEvents g [Event.KeyPressed k]).birds[i]? = some b' →
      (b.sprite.getPosition.y > 0 → b'.velocity.y = jumpVelocity ∧ jumpVelocity = -10) ∧
      (b.sprite.getPosition.y = 0 → b'.velocity = b.velocity) ∧
      b'.sprite = b.sprite ∧ b'.score = b.score := by
  have hp : processEvents g [Event.KeyPressed k] = handleEvent g (Event.KeyPressed k) := rfl
  rw [hp, handleEvent_birds]
  refine ⟨by simp, ?_⟩
  intro i b b' hb hb'
  rw [List.getElem?_map, hb] at hb'
  simp only [Option.map_some', Option.some.injEq] at hb'
  rw [jump_press k hk] at hb'
  subst hb'
  refine ⟨?_, ?_, ?_, ?_⟩
  · intro h; simp [h, jumpVelocity]
  · intro h; simp [h]
  · split <;> rfl
  · split <;> rfl

theorem jump_override_witness :
    (Key.W = Key.Up ∨ Key.W = Key.W) ∧
    (processEvents gJump [Event.KeyPressed Key.W]).birds =
      [birdAt 200 300 (-10) 4, birdAt 600 0 3 1] ∧
    ((processEvents gJump [Event.KeyPressed Key.W]).birds.length = gJump.birds.length ∧
    ∀ (i : Nat) (b b' : Bird), gJump.birds[i]? = some b →
      (processEvents gJump [Event.KeyPressed Key.W]).birds[i]? = some b' →
      (b.sprite.getPosition.y > 0 → b'.velocity.y = jumpVelocity ∧ jumpVelocity = -10) ∧
      (b.sprite.getPosition.y = 0 → b'.velocity = b.velocity) ∧
      b'.sprite = b.sprite ∧ b'.score = b.score) :=
  ⟨Or.inr rfl, by decide!, jump_override gJump Key.W (Or.inr rfl)⟩

/-! ## Top clamp (C3) -/

theorem updateBird_inside (b : Bird) : 0 ≤ (updateBird b).sprite.getPosition.y := by
  unfold updateBird
  simp only
  split
  · simp [Sprite.setPosition, Sprite.getPosition]
  · rename_i h
    exact not_lt.mp h

theorem resetGame_inside (g : Game) (e : Env) : BirdsInside (resetGame g e) := by
  intro b hb
  rw [resetGame_birds] at hb
  simp only [List.mem_cons, List.mem_singleton, List.not_mem_nil, or_false] at hb
  rcases hb with rfl | rfl <;> simp [Sprite.setPosition, Sprite.getPosition]

theorem updateScores_inside (g : Game) (h : BirdsInside g) : BirdsInside (updateScores g) := by
  intro b hb
  simp only [updateScores, List.mem_map] at hb
  obtain ⟨a, ha, rfl⟩ := hb
  have := h a ha
  split <;> simpa using this

theorem checkCollisions_inside (g : Game) (e : Env) (h : BirdsInside g) :
    BirdsInside (checkCollisions g e) := by
  unfold checkCollisions
  split
  · exact resetGame_inside _ _
  · exact h

theorem update_inside (g g' : Game) (e : Env) (h : update g e = some g') : BirdsInside g' := by
  unfold update at h
  simp only at h
  split at h
  · exact absurd h (by simp)
  · simp only [Option.some.injEq] at h
    subst h
    apply updateScores_inside
    apply checkCollisions_inside
    intro b hb
    simp only [List.mem_map] at hb
    obtain ⟨a, _, rfl⟩ := hb
    exact updateBird_inside a

theorem processEvents_inside (g : Game) (evs : List Event) (h : BirdsInside g) :
    BirdsInside (processEvents g evs) := by
  unfold processEvents
  induction evs generalizing g with
  | nil => exact h
  | cons ev evs ih =>
    rw [List.foldl_cons]
    apply ih
    intro b hb
    rw [handleEvent_birds] at hb
    simp only [List.mem_map] at hb
    obtain ⟨a, ha, rfl⟩ := hb
    rw [jumpOn_sprite, jumpOn_sprite]
    exact h a ha

theorem step_inside (g g' : Game) (a : Action) (h : BirdsInside g) (hs : step g a = some g') :
    BirdsInside g' := by
  cases a with
  | events polled =>
    simp only [step, Option.some.injEq] at hs
    subst hs
    exact processEvents_inside g polled h
  | tick e => exact update_inside g g' e hs
  | draw =>
    simp only [step, Option.some.injEq] at hs
    subst hs
    exact h

theorem exec_inside (g g' : Game) (acts : List Action) (h : BirdsInside g)
    (hx : exec g acts = some g') : BirdsInside g' := by
  induction acts generalizing g with
  | nil =>
    simp only [exec, Option.some.injEq] at hx
    subst hx
    exact h
  | cons a rest ih =>
    simp only [exec] at hx
    split at hx
    · exact absurd hx (by simp)
    · rename_i g1 hg1
      exact ih g1 (step_inside g g1 a h hg1) hx

/-- C3. Top clamp: from the state produced by `resetGame`, after every
sequence of calls of `processEvents` (with any events), `update` and
`render` that the code completes, every bird has a y position `>= 0`. -/
theorem top_clamp (g0 : Game) (e0 : Env) (acts : List Action) (g : Game)
    (h : exec (resetGame g0 e0) acts = some g) :
    ∀ b ∈ g.birds, 0 ≤ b.sprite.getPosition.y :=
  exec_inside _ _ acts (resetGame_inside g0 e0) h

theorem top_clamp_witness :
    ∃ g, exec (resetGame gStart eLoad) actsJump = some g ∧
      g.birds.map (fun b => b.sprite.getPosition.y) = [0, 0] ∧
      ∀ b ∈ g.birds, 0 ≤ b.sprite.getPosition.y := by
  have h : (exec (resetGame gStart eLoad) actsJump).map
      (fun g => g.birds.map fun b => b.sprite.getPosition.y) = some [0, 0] := by decide!
  obtain ⟨g, hg, hy⟩ := Option.map_eq_some'.mp h
  exact ⟨g, hg, hy, top_clamp gStart eLoad actsJump g hg⟩

/-! ## Erase safety (C10) -/

theorem spawnPipe_length (e : Env) (h : LoadsOk e) (pipes : List Sprite) :
    (spawnPipe e pipes).length = pipes.length + 2 := by
  obtain ⟨h1, h2⟩ := h
  obtain ⟨t1, ht1⟩ := Option.isSome_iff_exists.mp h1
  obtain ⟨t2, ht2⟩ := Option.isSome_iff_exists.mp h2
  simp [spawnPipe, ht1, ht2]

theorem eraseBegin_twice (pipes : List Sprite) (h : 2 ≤ pipes.length) :
    ∃ r, (eraseBegin pipes).bind eraseBegin = some r ∧ r.length + 2 = pipes.length := by
  match pipes, h with
  | a :: b :: rest, _ => exact ⟨rest, rfl, by simp⟩

theorem scrollPipes_length (done todo : List Sprite) (h : 2 ≤ (done ++ todo).length) :
    ∃ r, scrollPipes done todo = some r ∧
      (r.length = (done ++ todo).length ∨ r.length + 2 = (done ++ todo).length) := by
  induction todo generalizing done with
  | nil => exact ⟨done, rfl, Or.inl (by simp)⟩
  | cons p todo ih =>
    unfold scrollPipes
    simp only
    split
    · obtain ⟨r, hr, hlen⟩ := eraseBegin_twice (done ++ p.move (-2) 0 :: todo)
        (by simpa using h)
      exact ⟨r, hr, Or.inr (by simpa using hlen)⟩
    · have := ih (done ++ [p.move (-2) 0]) (by simpa using h)
      simpa using this

theorem update_even (g : Game) (e : Env) (hl : LoadsOk e) (hg : g.pipes.length % 2 = 0) :
    2 ≤ (spawnPipe e g.pipes).length ∧
      ∃ g', update g e = some g' ∧ g'.pipes.length % 2 = 0 := by
  have hlen := spawnPipe_length e hl g.pipes
  refine ⟨by omega, ?_⟩
  obtain ⟨r, hr, hrl⟩ := scrollPipes_length [] (spawnPipe e g.pipes) (by simp; omega)
  simp only [List.nil_append] at hrl
  unfold update
  simp only [hr]
  refine ⟨_, rfl, ?_⟩
  rw [updateScores_pipes]
  rcases checkCollisions_pipes { g with birds := g.birds.map updateBird, pipes := r } e with h | h
  · rw [h]; simp only; omega
  · rw [h]; rfl

theorem step_even (g : Game) (a : Action) (hl : ∀ e, a = Action.tick e → LoadsOk e)
    (hg : g.pipes.length % 2 = 0) :
    ∃ g', step g a = some g' ∧ g'.pipes.length % 2 = 0 := by
  cases a with
  | events polled => exact ⟨_, rfl, by rw [processEvents_pipes]; exact hg⟩
  | tick e => exact (update_even g e (hl e rfl) hg).2
  | draw => exact ⟨_, rfl, hg⟩

theorem exec_even (g : Game) (acts : List Action)
    (hl : ∀ e, Action.tick e ∈ acts → LoadsOk e) (hg : g.pipes.length % 2 = 0) :
    ∃ g', exec g acts = some g' ∧ g'.pipes.length % 2 = 0 := by
  induction acts generalizing g with
  | nil => exact ⟨g, rfl, hg⟩
  | cons a rest ih =>
    obtain ⟨g1, h1, he1⟩ := step_even g a (fun e he => hl e (by simp [he])) hg
    obtain ⟨g2, h2, he2⟩ := ih g1 (fun e he => hl e (by simp [he])) he1
    exact ⟨g2, by simp only [exec, h1, h2], he2⟩

/-- C10. Erase safety: when both pipe images load in every call of
`spawnPipe`, every sequence of calls of `processEvents`, `update` and
`render` from the state produced by `resetGame` runs to its end (no `erase`
meets an empty vector) and ends with a `pipes` vector of even length; and in
a further call of `update` the vector the scroll loop and its two `erase`
calls work on holds at least two elements, and that call completes too. -/
theorem erase_safety (g0 : Game) (e0 : Env) (acts : List Action)
    (hl : ∀ e, Action.tick e ∈ acts → LoadsOk e) :
    ∃ g, exec (resetGame g0 e0) acts = some g ∧ g.pipes.length % 2 = 0 ∧
      ∀ e, LoadsOk e → 2 ≤ (spawnPipe e g.pipes).length ∧ (update g e).isSome = true := by
  obtain ⟨g, hg, he⟩ := exec_even (resetGame g0 e0) acts hl (by rw [resetGame_pipes]; rfl)
  refine ⟨g, hg, he, fun e hle => ?_⟩
  obtain ⟨h2, g', hg', _⟩ := update_even g e hle he
  exact ⟨h2, by rw [hg']; rfl⟩

theorem erase_safety_witness :
    (∀ e, Action.tick e ∈ [Action.tick eLoad, Action.draw, Action.tick eLoad] → LoadsOk e) ∧
    ∃ g, exec (resetGame gStart eLoad) [Action.tick eLoad, Action.draw, Action.tick eLoad] =
        some g ∧ g.pipes.length % 2 = 0 ∧
      ∀ e, LoadsOk e → 2 ≤ (spawnPipe e g.pipes).length ∧ (update g e).isSome = true :=
  have h : ∀ e, Action.tick e ∈ [Action.tick eLoad, Action.draw, Action.tick eLoad] →
      LoadsOk e := by
    intro e he
    simp only [List.mem_cons, Action.tick.injEq, List.mem_singleton, reduceCtorEq, false_or,
      or_self, List.not_mem_nil, or_false] at he
    subst he
    decide
  ⟨h, erase_safety gStart eLoad _ h⟩

/-! ## Segment retirement (C5) -/

theorem pieces_append (l1 l2 : List Pair) : pieces (l1 ++ l2) = pieces l1 ++ pieces l2 := by
  induction l1 with
  | nil => rfl
  | cons p l1 ih => simp [pieces, ih]

theorem up_move (p : Pair) : p.up.move (-2) 0 = p.shift.up := by
  simp [Pair.up, Pair.shift, Sprite.move, Sprite.setPosition, pipeUp, Sprite.getPosition,
    sub_eq_add_neg]

theorem down_move (p : Pair) : p.down.move (-2) 0 = p.shift.down := by
  simp [Pair.down, Pair.shift, Sprite.move, Sprite.setPosition, pipeDown, Sprite.getPosition,
    sub_eq_add_neg]

theorem up_x (p : Pair) : p.up.getPosition.x = p.x := rfl
theorem down_x (p : Pair) : p.down.getPosition.x = p.x := rfl

theorem up_width (p : Pair) : p.up.getGlobalBounds.width = (p.t1.width : ℚ) := by
  have h : (0 : ℚ) ≤ (p.t1.width : ℚ) := Nat.cast_nonneg _
  simp [Pair.up, pipeUp, Sprite.getGlobalBounds, Sprite.setPosition, Sprite.setScale,
    Sprite.setTexture, Sprite.default, h]

theorem down_width (p : Pair) : p.down.getGlobalBounds.width = (p.t2.width : ℚ) := by
  have h : (0 : ℚ) ≤ (p.t2.width : ℚ) := Nat.cast_nonneg _
  simp [Pair.down, pipeDown, Sprite.getGlobalBounds, Sprite.setPosition, Sprite.setScale,
    Sprite.setTexture, Sprite.default, h]

theorem spawnPipe_pieces (e : Env) (t1 t2 : Texture) (h1 : e.pipe1 = some t1)
    (h2 : e.pipe2 = some t2) (l : List Pair) :
    spawnPipe e (pieces l) = pieces (l ++ [Pair.spawned t1 t2 e.rand]) := by
  rw [pieces_append]
  simp [spawnPipe, h1, h2, pieces, Pair.up, Pair.down, Pair.spawned, pipeUp, pipeDown,
    Sprite.setPosition, Sprite.getPosition]


theorem scrollPipes_keep (w : Nat) (l : List Pair) (done : List Sprite)
    (hw : ∀ p ∈ l, p.t1.width = w ∧ p.t2.width = w)
    (hx : ∀ p ∈ l, ¬ (p.x - 2 + (w : ℚ) < 0)) :
    scrollPipes done (pieces l) = some (done ++ pieces (l.map Pair.shift)) := by
  induction l generalizing done with
  | nil => simp [pieces, scrollPipes]
  | cons p rest ih =>
    have hp := hx p (List.mem_cons_self _ _)
    obtain ⟨hw1, hw2⟩ := hw p (List.mem_cons_self _ _)
    have h1 : ¬ (p.shift.up.getPosition.x < -p.shift.up.getGlobalBounds.width) := by
      rw [up_x, up_width]
      simp only [Pair.shift, hw1]
      intro h; apply hp; linarith
    have h2 : ¬ (p.shift.down.getPosition.x < -p.shift.down.getGlobalBounds.width) := by
      rw [down_x, down_width]
      simp only [Pair.shift, hw2]
      intro h; apply hp; linarith
    simp only [pieces, scrollPipes, up_move, down_move, if_neg h1, if_neg h2]
    rw [ih _ (fun q hq => hw q (List.mem_cons_of_mem _ hq))
      (fun q hq => hx q (List.mem_cons_of_mem _ hq))]
    simp [pieces]

theorem scrollPipes_retire (w : Nat) (p : Pair) (rest : List Pair) (hw : p.t1.width = w)
    (hx : p.x - 2 + (w : ℚ) < 0) :
    scrollPipes [] (pieces (p :: rest)) = some (pieces rest) := by
  have h1 : p.shift.up.getPosition.x < -p.shift.up.getGlobalBounds.width := by
    rw [up_x, up_width]
    simp only [Pair.shift, hw]
    linarith
  simp only [pieces, scrollPipes, up_move, if_pos h1]
  rfl

theorem TrackOk.nil (w : Nat) : TrackOk w [] :=
  ⟨by simp, by simp, by simp, List.Pairwise.nil⟩

theorem TrackOk.spawn (w : Nat) (l : List Pair) (h : TrackOk w l) (t1 t2 : Texture) (r : Int)
    (h1 : t1.width = w) (h2 : t2.width = w) : TrackOk w (l ++ [Pair.spawned t1 t2 r]) := by
  have hww : (0 : ℚ) ≤ (windowWidth : ℚ) := by simp [windowWidth]
  have hwn : (0 : ℚ) ≤ (w : ℚ) := Nat.cast_nonneg _
  refine ⟨?_, ?_, ?_, ?_⟩
  · intro p hp
    rcases List.mem_append.mp hp with hp | hp
    · exact h.width p hp
    · rw [List.mem_singleton.mp hp]; exact ⟨h1, h2⟩
  · intro p hp
    rcases List.mem_append.mp hp with hp | hp
    · exact h.live p hp
    · rw [List.mem_singleton.mp hp]
      simp only [Pair.spawned]
      linarith
  · intro p hp
    rcases List.mem_append.mp hp with hp | hp
    · exact h.bound p hp
    · rw [List.mem_singleton.mp hp]
      exact le_refl _
  · rw [List.pairwise_append]
    refine ⟨h.sorted, List.pairwise_singleton _ _, ?_⟩
    intro a ha b hb
    rw [List.mem_singleton.mp hb]
    exact h.bound a ha

theorem TrackOk.tail (w : Nat) (p : Pair) (rest : List Pair) (h : TrackOk w (p :: rest)) :
    TrackOk w rest :=
  ⟨fun q hq => h.width q (List.mem_cons_of_mem _ hq),
   fun q hq => h.live q (List.mem_cons_of_mem _ hq),
   fun q hq => h.bound q (List.mem_cons_of_mem _ hq),
   (List.pairwise_cons.mp h.sorted).2⟩

theorem TrackOk.head_le (w : Nat) (p : Pair) (rest : List Pair) (h : TrackOk w (p :: rest)) :
    ∀ q ∈ p :: rest, p.x ≤ q.x := by
  intro q hq
  rcases List.mem_cons.mp hq with rfl | hq
  · exact le_refl _
  · exact (List.pairwise_cons.mp h.sorted).1 q hq

theorem TrackOk.shift (w : Nat) (p : Pair) (rest : List Pair) (h : TrackOk w (p :: rest))
    (hx : ¬ (p.x - 2 + (w : ℚ) < 0)) : TrackOk w ((p :: rest).map Pair.shift) := by
  have hle := TrackOk.head_le w p rest h
  refine ⟨?_, ?_, ?_, ?_⟩
  · intro q hq
    obtain ⟨a, ha, rfl⟩ := List.mem_map.mp hq
    exact h.width a ha
  · intro q hq
    obtain ⟨a, ha, rfl⟩ := List.mem_map.mp hq
    have := hle a ha
    simp only [Pair.shift]
    linarith [not_lt.mp hx]
  · intro q hq
    obtain ⟨a, ha, rfl⟩ := List.mem_map.mp hq
    have := h.bound a ha
    simp only [Pair.shift]
    linarith
  · rw [List.pairwise_map]
    refine h.sorted.imp ?_
    intro a b hab
    simp only [Pair.shift]
    linarith



/-- The scroll loop of `update` on a track that satisfies the invariant,
after the spawn of this tick. -/
theorem scroll_track (w : Nat) (p : Pair) (rest : List Pair) (h : TrackOk w (p :: rest)) :
    scrollPipes [] (pieces (p :: rest)) =
        some (if p.x - 2 + (w : ℚ) < 0 then pieces rest
          else pieces ((p :: rest).map Pair.shift)) ∧
      TrackOk w (if p.x - 2 + (w : ℚ) < 0 then rest else (p :: rest).map Pair.shift) := by
  by_cases hx : p.x - 2 + (w : ℚ) < 0
  · rw [if_pos hx, if_pos hx]
    exact ⟨scrollPipes_retire w p rest (h.width p (List.mem_cons_self _ _)).1 hx,
      TrackOk.tail w p rest h⟩
  · rw [if_neg hx, if_neg hx]
    refine ⟨?_, TrackOk.shift w p rest h hx⟩
    have := scrollPipes_keep w (p :: rest) [] h.width (fun q hq => by
      have := TrackOk.head_le w p rest h q hq
      intro hq'; apply hx; linarith)
    simpa using this

theorem update_of_scroll (g : Game) (e : Env) (out : List Sprite)
    (h : scrollPipes [] (spawnPipe e g.pipes) = some out) :
    ∃ g', update g e = some g' ∧ (g'.pipes = out ∨ g'.pipes = []) := by
  unfold update
  simp only [h]
  refine ⟨_, rfl, ?_⟩
  rw [updateScores_pipes]
  exact checkCollisions_pipes _ e

theorem SamePairs.refl (l : List Pair) : SamePairs l l := by
  unfold SamePairs
  induction l with
  | nil => exact List.Forall₂.nil
  | cons p l ih => exact List.Forall₂.cons ⟨rfl, rfl, rfl⟩ ih

theorem scroll_retireHead (w : Nat) (l : List Pair) (h : TrackOk w l) :
    scrollPipes [] (pieces l) = some (pieces (retireHead w l)) ∧
      TrackOk w (retireHead w l) := by
  cases l with
  | nil => exact ⟨rfl, h⟩
  | cons p rest =>
    obtain ⟨hs, hok⟩ := scroll_track w p rest h
    by_cases hc : p.x - 2 + (w : ℚ) < 0
    · simp only [retireHead, if_pos hc] at hs hok ⊢
      exact ⟨hs, hok⟩
    · simp only [retireHead, if_neg hc] at hs hok ⊢
      exact ⟨hs, hok⟩

theorem spawnPipe_track (w : Nat) (e : Env) (he : WholeSpawn w e) (l : List Pair)
    (hl : TrackOk w l) :
    ∃ l', spawnPipe e (pieces l) = pieces l' ∧ TrackOk w l' := by
  rcases he with h1 | ⟨t1, t2, h1, h2, hw1, hw2⟩
  · exact ⟨l, by simp [spawnPipe, h1], hl⟩
  · exact ⟨_, spawnPipe_pieces e t1 t2 h1 h2 l, TrackOk.spawn w l hl t1 t2 e.rand hw1 hw2⟩

theorem update_track (w : Nat) (g : Game) (e : Env) (l : List Pair) (hg : g.pipes = pieces l)
    (hl : TrackOk w l) (he : WholeSpawn w e) :
    ∃ g' l', update g e = some g' ∧ g'.pipes = pieces l' ∧ TrackOk w l' := by
  obtain ⟨l', hsp, hok⟩ := spawnPipe_track w e he l hl
  obtain ⟨hs, hok'⟩ := scroll_retireHead w l' hok
  rw [← hsp, ← hg] at hs
  obtain ⟨g', hu, hp | hp⟩ := update_of_scroll g e _ hs
  · exact ⟨g', _, hu, hp, hok'⟩
  · exact ⟨g', [], hu, hp, TrackOk.nil w⟩

theorem step_track (w : Nat) (g : Game) (a : Action) (l : List Pair) (hg : g.pipes = pieces l)
    (hl : TrackOk w l) (he : ∀ e, a = Action.tick e → WholeSpawn w e) :
    ∃ g' l', step g a = some g' ∧ g'.pipes = pieces l' ∧ TrackOk w l' := by
  cases a with
  | events polled => exact ⟨_, l, rfl, by rw [processEvents_pipes]; exact hg, hl⟩
  | tick e => exact update_track w g e l hg hl (he e rfl)
  | draw => exact ⟨_, l, rfl, hg, hl⟩

theorem exec_track (w : Nat) (g : Game) (acts : List Action) (l : List Pair)
    (hg : g.pipes = pieces l) (hl : TrackOk w l)
    (he : ∀ e, Action.tick e ∈ acts → WholeSpawn w e) :
    ∃ g' l', exec g acts = some g' ∧ g'.pipes = pieces l' ∧ TrackOk w l' := by
  induction acts generalizing g l with
  | nil => exact ⟨g, l, rfl, hg, hl⟩
  | cons a rest ih =>
    obtain ⟨g1, l1, h1, hg1, hl1⟩ := step_track w g a l hg hl (fun e h => he e (by simp [h]))
    obtain ⟨g2, l2, h2, hg2, hl2⟩ := ih g1 l1 hg1 hl1 (fun e h => he e (by simp [h]))
    exact ⟨g2, l2, by simp only [exec, h1, h2], hg2, hl2⟩

theorem TrackOk.facts (w : Nat) (l : List Pair) (h : TrackOk w l) :
    ∀ q ∈ l, q.t1.width = w ∧ q.t2.width = w ∧ 0 ≤ q.x + (w : ℚ) :=
  fun q hq => ⟨(h.width q hq).1, (h.width q hq).2, h.live q hq⟩

/-- C5 (as amended). Segment retirement: when every call of `spawnPipe`
pushes nothing or a whole pair whose two pieces have the one width `w`,
then in every state reached from `resetGame` the `pipes` vector is a
sequence of whole pairs of width `w` (upper piece, lower piece), none of
which has crossed the left edge (`0 <= x + w`). In the next call of
`update` the scroll loop removes elements exactly when the oldest pair,
moved left by 2, has its right edge below 0; what it removes are the two
pieces of that pair and nothing else; the pairs that stay are whole and
have not crossed the left edge; and when it removes nothing every pair has
moved left by 2. The call of `update` completes, with that vector or, after
a collision, with the empty vector of `resetGame`. -/
theorem segment_retirement (w : Nat) (g0 : Game) (e0 : Env) (acts : List Action)
    (hl : ∀ e, Action.tick e ∈ acts → WholeSpawn w e) :
    ∃ g l, exec (resetGame g0 e0) acts = some g ∧ g.pipes = pieces l ∧
      (∀ q ∈ l, q.t1.width = w ∧ q.t2.width = w ∧ 0 ≤ q.x + (w : ℚ)) ∧
      ∀ e, WholeSpawn w e →
        ∃ l' out, spawnPipe e g.pipes = pieces l' ∧
          (∀ q ∈ l', q.t1.width = w ∧ q.t2.width = w ∧ 0 ≤ q.x + (w : ℚ)) ∧
          scrollPipes [] (pieces l') = some (pieces out) ∧
          (∃ g', update g e = some g' ∧ (g'.pipes = pieces out ∨ g'.pipes = [])) ∧
          (∀ q ∈ out, q.t1.width = w ∧ q.t2.width = w ∧ 0 ≤ q.x + (w : ℚ)) ∧
          (l' = [] → out = []) ∧
          ∀ p rest, l' = p :: rest →
            (p.x - 2 + (w : ℚ) < 0 → SamePairs out rest) ∧
            (¬ (p.x - 2 + (w : ℚ) < 0) → out = (p :: rest).map Pair.shift) := by
  obtain ⟨g, l, hx, hg, hok⟩ := exec_track w (resetGame g0 e0) acts []
    (by rw [resetGame_pipes]; rfl) (TrackOk.nil w) hl
  refine ⟨g, l, hx, hg, TrackOk.facts w l hok, ?_⟩
  intro e he
  obtain ⟨l', hsp, hok'⟩ := spawnPipe_track w e he l hok
  obtain ⟨hs, hout⟩ := scroll_retireHead w l' hok'
  refine ⟨l', retireHead w l', by rw [hg, hsp], TrackOk.facts w l' hok', hs, ?_,
    TrackOk.facts w _ hout, ?_, ?_⟩
  · rw [← hsp, ← hg] at hs
    exact update_of_scroll g e _ hs
  · intro h; rw [h]; rfl
  · intro p rest h
    subst h
    constructor
    · intro hc
      simp only [retireHead, if_pos hc]
      exact SamePairs.refl rest
    · intro hc
      simp only [retireHead, if_neg hc]

theorem segment_retirement_witness :
    (∀ e, Action.tick e ∈ actsTwoPairs → WholeSpawn 52 e) ∧
    exec (resetGame gStart eLoad) actsTwoPairs = some gTwoPairs ∧
    scrollPipes [] (spawnPipe eLoad gTwoPairs.pipes) =
      some (pieces [⟨pipeImage, pipeImage, 1234, -50⟩, ⟨pipeImage, pipeImage, 1234, 800⟩]) ∧
    ∃ g l, exec (resetGame gStart eLoad) actsTwoPairs = some g ∧ g.pipes = pieces l ∧
      (∀ q ∈ l, q.t1.width = 52 ∧ q.t2.width = 52 ∧ 0 ≤ q.x + ((52 : Nat) : ℚ)) ∧
      ∀ e, WholeSpawn 52 e →
        ∃ l' out, spawnPipe e g.pipes = pieces l' ∧
          (∀ q ∈ l', q.t1.width = 52 ∧ q.t2.width = 52 ∧ 0 ≤ q.x + ((52 : Nat) : ℚ)) ∧
          scrollPipes [] (pieces l') = some (pieces out) ∧
          (∃ g', update g e = some g' ∧ (g'.pipes = pieces out ∨ g'.pipes = [])) ∧
          (∀ q ∈ out, q.t1.width = 52 ∧ q.t2.width = 52 ∧ 0 ≤ q.x + ((52 : Nat) : ℚ)) ∧
          (l' = [] → out = []) ∧
          ∀ p rest, l' = p :: rest →
            (p.x - 2 + ((52 : Nat) : ℚ) < 0 → SamePairs out rest) ∧
            (¬ (p.x - 2 + ((52 : Nat) : ℚ) < 0) → out = (p :: rest).map Pair.shift) :=
  have h : ∀ e, Action.tick e ∈ actsTwoPairs → WholeSpawn 52 e := by
    intro e he
    simp only [actsTwoPairs, List.mem_append, List.mem_cons, Action.tick.injEq,
      List.mem_singleton, List.not_mem_nil, or_false, or_self, List.mem_replicate] at he
    rcases he with rfl | ⟨_, rfl⟩
    · exact Or.inr ⟨pipeImage, pipeImage, rfl, rfl, rfl, rfl⟩
    · exact Or.inl rfl
  ⟨h, reach_twoPairs, by decide!, segment_retirement 52 gStart eLoad actsTwoPairs h⟩

/-- C5, counterexample. In the round `actsOddPiece` the first tick pushes
only an upper piece (`pipe2.png` does not load). 426 ticks later that piece
stands at `x = -52`; the next tick spawns a whole pair at `x = 800`, the
lone piece crosses the left edge, and the two `erase` calls remove it
together with the upper piece of the new pair: only one piece of that pair
is removed, and it has not crossed the left edge. -/
theorem retirement_counterexample :
    exec (resetGame gStart eLoad) actsOddPiece = some gOddPiece ∧
    spawnPipe eLoad gOddPiece.pipes =
      [Pair.up ⟨pipeImage, pipeImage, 1234, -52⟩,
       Pair.up (Pair.spawned pipeImage pipeImage 1234),
       Pair.down (Pair.spawned pipeImage pipeImage 1234)] ∧
    (update gOddPiece eLoad).map (fun g => g.pipes) =
      some [Pair.down (Pair.spawned pipeImage pipeImage 1234)] :=
  ⟨reach_oddPiece, by decide!, by decide!⟩

/-- With pieces of unequal width a pair is retired when its narrower piece
has crossed the left edge, while the right edge of the wider piece is still
inside the window. -/
theorem retirement_unequal_widths :
    scrollPipes [] (pieces [⟨⟨52, 320⟩, ⟨20, 320⟩, 1234, -20⟩]) = some [] ∧
    ((Pair.up ⟨⟨52, 320⟩, ⟨20, 320⟩, 1234, -20⟩).move (-2) 0).getPosition.x +
      ((Pair.up ⟨⟨52, 320⟩, ⟨20, 320⟩, 1234, -20⟩).move (-2) 0).getGlobalBounds.width = 30 := by
  constructor <;> decide!

/-- With a narrower pair behind a wider one the wrong pair is retired: the
pair of width 100 stands at `x = -12` and the pair of width 10, spawned one
tick later, at `x = -10`; the upper piece of the narrow pair crosses the left
edge and the two `erase` calls remove the wide pair, whose right edge is at
`86`; the narrow pair stays. -/
theorem retirement_narrower_later :
    scrollPipes []
        (pieces [⟨⟨100, 320⟩, ⟨100, 320⟩, 1234, -12⟩, ⟨⟨10, 320⟩, ⟨10, 320⟩, 1234, -10⟩]) =
      some [Pair.up ⟨⟨10, 320⟩, ⟨10, 320⟩, 1234, -12⟩,
        Pair.down ⟨⟨10, 320⟩, ⟨10, 320⟩, 1234, -10⟩] := by
  decide!

/-! ## Ledger round trip (C7) -/

theorem digitChar_toNat (d : Nat) (h : d < 10) : (digitChar d).toNat - 48 = d := by
  interval_cases d <;> rfl

theorem digitChar_isDigit (d : Nat) (h : d < 10) : isDigit (digitChar d) = true := by
  interval_cases d <;> rfl

theorem isDigit_not_space (c : Char) (h : isDigit c = true) : isSpace c = false := by
  by_contra hs
  have hs' : isSpace c = true := by simpa using hs
  simp only [isSpace, Bool.or_eq_true, decide_eq_true_eq] at hs'
  rcases hs' with ((((rfl | rfl) | rfl) | rfl) | rfl) | rfl <;> exact absurd h (by decide)

theorem isDigit_not_sign (c : Char) (h : isDigit c = true) : c ≠ '-' ∧ c ≠ '+' := by
  constructor <;> (rintro rfl; exact absurd h (by decide))

theorem natToChars_digits (n : Nat) : ∀ c ∈ natToChars n, isDigit c = true := by
  intro c hc
  unfold natToChars at hc
  split at hc
  · simp only [List.mem_singleton] at hc
    subst hc; rfl
  · simp only [List.mem_map, List.mem_reverse] at hc
    obtain ⟨d, hd, rfl⟩ := hc
    exact digitChar_isDigit d (Nat.digits_lt_base (by norm_num) hd)

theorem natToChars_ne_nil (n : Nat) : natToChars n ≠ [] := by
  unfold natToChars
  split
  · simp
  · rename_i h
    simpa [Nat.digits_ne_nil_iff_ne_zero] using h

theorem digitsValue_natToChars (n : Nat) : digitsValue (natToChars n) = n := by
  unfold natToChars digitsValue
  split
  · rename_i h; subst h; rfl
  · rw [List.foldl_map, List.foldl_reverse]
    have key : ∀ L : List ℕ, (∀ d ∈ L, d < 10) →
        List.foldr (fun x y => 10 * y + ((digitChar x).toNat - 48)) 0 L = Nat.ofDigits 10 L := by
      intro L hL
      induction L with
      | nil => rfl
      | cons d L ih =>
        rw [List.foldr_cons, ih (fun x hx => hL x (List.mem_cons_of_mem _ hx)),
          digitChar_toNat d (hL d (List.mem_cons_self _ _)), Nat.ofDigits_cons]
        ring
    rw [key _ (fun d hd => Nat.digits_lt_base (by norm_num) hd), Nat.ofDigits_digits]

theorem readString_entry (ws cs rest : List Char) (hws : ∀ c ∈ ws, isSpace c = true)
    (hne : cs ≠ []) (hcs : ∀ c ∈ cs, isSpace c = false) :
    readString (ws ++ (cs ++ ' ' :: rest)) = some (String.mk cs, ' ' :: rest) := by
  have hdrop : List.dropWhile isSpace (ws ++ (cs ++ ' ' :: rest)) = cs ++ ' ' :: rest := by
    rw [List.dropWhile_append_of_pos hws]
    cases cs with
    | nil => exact absurd rfl hne
    | cons c cs =>
      exact List.dropWhile_cons_of_neg (by simp [hcs c (List.mem_cons_self _ _)])
  have htake : List.takeWhile (fun c => !isSpace c) (cs ++ ' ' :: rest) = cs := by
    rw [List.takeWhile_append_of_pos (by intro c hc; simp [hcs c hc])]
    simp [List.takeWhile_cons_of_neg, isSpace]
  have hdrop2 : List.dropWhile (fun c => !isSpace c) (cs ++ ' ' :: rest) = ' ' :: rest := by
    rw [List.dropWhile_append_of_pos (by intro c hc; simp [hcs c hc])]
    exact List.dropWhile_cons_of_neg (by simp [isSpace])
  unfold readString
  simp only [hdrop, htake, hdrop2]
  rw [if_neg]
  intro h
  exact hne (List.append_eq_nil.mp h).1

theorem readInt_entry (n : Nat) (rest : List Char) (hn : n ≤ 2147483647) :
    readInt (' ' :: (natToChars n ++ '\n' :: rest)) = some ((n : Int), '\n' :: rest) := by
  have hd := natToChars_digits n
  have hne := natToChars_ne_nil n
  have hv := digitsValue_natToChars n
  generalize natToChars n = ds at hd hne hv
  cases ds with
  | nil => exact absurd rfl hne
  | cons c ds =>
    have hc : isDigit c = true := hd c (List.mem_cons_self _ _)
    have hcs := isDigit_not_space c hc
    obtain ⟨hm, hp⟩ := isDigit_not_sign c hc
    have hdrop : List.dropWhile isSpace (' ' :: (c :: ds ++ '\n' :: rest)) =
        c :: ds ++ '\n' :: rest := by
      rw [List.dropWhile_cons_of_pos (by rfl)]
      exact List.dropWhile_cons_of_neg (by simp [hcs])
    have htake : List.takeWhile isDigit (c :: ds ++ '\n' :: rest) = c :: ds := by
      rw [List.takeWhile_append_of_pos hd]
      simp [List.takeWhile_cons_of_neg, isDigit]
    have hdrop2 : List.dropWhile isDigit (c :: ds ++ '\n' :: rest) = '\n' :: rest := by
      rw [List.dropWhile_append_of_pos hd]
      exact List.dropWhile_cons_of_neg (by simp [isDigit])
    have hsign : readSign (c :: ds ++ '\n' :: rest) = (false, c :: ds ++ '\n' :: rest) := by
      unfold readSign
      split
      · rename_i heq
        simp only [List.cons_append, List.cons.injEq] at heq
        exact absurd heq.1 hm
      · rename_i heq
        simp only [List.cons_append, List.cons.injEq] at heq
        exact absurd heq.1 hp
      · rfl
    unfold readInt
    simp only [hdrop, hsign, htake, hdrop2, hv]
    simp
    omega


theorem ledgerText_cons (p : String × Int) (hs : List (String × Int)) :
    ledgerText (p :: hs) = entryText p ++ ledgerText hs := by
  simp [ledgerText]

theorem ledgerText_length (hs : List (String × Int)) : hs.length ≤ (ledgerText hs).length := by
  induction hs with
  | nil => simp
  | cons p hs ih =>
    rw [ledgerText_cons]
    simp only [entryText, List.length_append, List.length_cons, List.length_nil]
    omega

theorem readEntries_ledgerText (hs : List (String × Int)) (hv : ∀ p ∈ hs, ValidEntry p)
    (fuel : Nat) (hf : hs.length < fuel) (ws : List Char) (hws : ∀ c ∈ ws, isSpace c = true) :
    readEntries fuel (ws ++ ledgerText hs) = hs := by
  induction hs generalizing fuel ws with
  | nil =>
    cases fuel with
    | zero => omega
    | succ fuel =>
      have : readString (ws ++ ledgerText []) = none := by
        have hd : List.dropWhile isSpace ws = [] := by
          rw [List.dropWhile_eq_nil_iff]; exact hws
        simp [readString, ledgerText, hd]
      simp only [readEntries, this]
  | cons p hs ih =>
    cases fuel with
    | zero => omega
    | succ fuel =>
      obtain ⟨hne, hsp, h0, hmax⟩ := hv p (List.mem_cons_self _ _)
      obtain ⟨name, score⟩ := p
      simp only at hne hsp h0 hmax
      obtain ⟨n, rfl⟩ := Int.eq_ofNat_of_zero_le h0
      have htxt : ws ++ ledgerText ((name, (n : Int)) :: hs) =
          ws ++ (name.data ++ ' ' :: (natToChars n ++ '\n' :: ledgerText hs)) := by
        rw [ledgerText_cons]
        simp [entryText, intToChars]
      rw [htxt]
      simp only [readEntries, readString_entry ws name.data _ hws hne hsp,
        readInt_entry n (ledgerText hs) (by omega)]
      have := ih (fun q hq => hv q (List.mem_cons_of_mem _ hq)) fuel
        (by simp only [List.length_cons] at hf; omega) ['\n']
        (by intro c hc; rw [List.mem_singleton.mp hc]; rfl)
      simp only [List.singleton_append] at this
      rw [this]

theorem fileEntries_ledgerText (hs : List (String × Int)) (hv : ∀ p ∈ hs, ValidEntry p) :
    fileEntries (ledgerText hs) = hs := by
  have := readEntries_ledgerText hs hv ((ledgerText hs).length + 1)
    (by have := ledgerText_length hs; omega) [] (by simp)
  simpa [fileEntries] using this

theorem readString_shorter (s s1 : List Char) (name : String)
    (h : readString s = some (name, s1)) : s1.length < s.length := by
  unfold readString at h
  simp only at h
  have h1 : (List.dropWhile isSpace s).length ≤ s.length :=
    (List.dropWhile_sublist _).length_le
  cases hd : List.dropWhile isSpace s with
  | nil => simp [hd] at h
  | cons c t =>
    have hc : isSpace c = false := by
      have := List.head_dropWhile_not isSpace s (by rw [hd]; simp)
      simpa [hd] using this
    rw [hd] at h h1
    simp only [reduceCtorEq, if_false, Option.some.injEq, Prod.mk.injEq] at h
    obtain ⟨_, rfl⟩ := h
    rw [List.dropWhile_cons_of_pos (by simp [hc])]
    have h2 : (List.dropWhile (fun c => !isSpace c) t).length ≤ t.length :=
      (List.dropWhile_sublist _).length_le
    simp only [List.length_cons] at h1
    omega

theorem readSign_length (s : List Char) : (readSign s).2.length ≤ s.length := by
  unfold readSign
  split <;> simp

theorem readInt_shorter (s s2 : List Char) (v : Int) (h : readInt s = some (v, s2)) :
    s2.length ≤ s.length := by
  have h1 : (List.dropWhile isSpace s).length ≤ s.length :=
    (List.dropWhile_sublist _).length_le
  have h2 := readSign_length (List.dropWhile isSpace s)
  have h3 : (List.dropWhile isDigit (readSign (List.dropWhile isSpace s)).2).length ≤
      (readSign (List.dropWhile isSpace s)).2.length :=
    (List.dropWhile_sublist _).length_le
  unfold readInt at h
  simp only at h
  split_ifs at h <;>
    (simp only [Option.some.injEq, Prod.mk.injEq] at h
     obtain ⟨_, rfl⟩ := h
     omega)

/-- The loop of `loadHighScores` needs no more than `s.length + 1` passes:
with any larger bound it pushes the same entries. -/
theorem readEntries_fuel (n : Nat) : ∀ (s : List Char) (f1 f2 : Nat), s.length ≤ n →
    s.length < f1 → s.length < f2 → readEntries f1 s = readEntries f2 s := by
  induction n with
  | zero =>
    intro s f1 f2 hn h1 h2
    have hs : s = [] := List.eq_nil_of_length_eq_zero (by omega)
    subst hs
    cases f1 with
    | zero => simp at h1
    | succ f1 =>
      cases f2 with
      | zero => simp at h2
      | succ f2 => simp [readEntries, readString]
  | succ n ih =>
    intro s f1 f2 hn h1 h2
    cases f1 with
    | zero => omega
    | succ f1 =>
      cases f2 with
      | zero => omega
      | succ f2 =>
        simp only [readEntries]
        cases hrs : readString s with
        | none => rfl
        | some r =>
          obtain ⟨name, s1⟩ := r
          have hl1 := readString_shorter s s1 name hrs
          simp only
          cases hri : readInt s1 with
          | none => rfl
          | some q =>
            obtain ⟨v, s2⟩ := q
            have hl2 := readInt_shorter s1 s2 v hri
            simp only
            rw [ih s2 f1 f2 (by omega) (by omega) (by omega)]

theorem fileEntries_fuel (txt : List Char) (fuel : Nat) (h : txt.length < fuel) :
    readEntries fuel txt = fileEntries txt :=
  readEntries_fuel txt.length txt fuel (txt.length + 1) (le_refl _) h (Nat.lt_succ_self _)

/-- C7. Ledger round trip: when every entry of the ledger has a name that is
not empty and free of white space and a score that is a non-negative `int`,
the file written by `saveHighScores`, read by `loadHighScores` into an empty
ledger, gives back exactly the same entries, in the same order. -/
theorem ledger_round_trip (g : Game) (e : Env) (hw : e.canWrite = true) (hr : e.canRead = true)
    (hv : ∀ p ∈ g.highScores, ValidEntry p) :
    (saveHighScores g e).ledgerFile = some (ledgerText g.highScores) ∧
      (loadHighScores { saveHighScores g e with highScores := [] } e).highScores =
        g.highScores := by
  simp [saveHighScores, loadHighScores, hw, hr, fileEntries_ledgerText g.highScores hv]

theorem ledger_round_trip_witness :
    (eLoad.canWrite = true ∧ eLoad.canRead = true ∧ ∀ p ∈ gLedger.highScores, ValidEntry p) ∧
    (saveHighScores gLedger eLoad).ledgerFile = some "ann 7\nbob 0\ncy 2147483647\n".data ∧
    ((saveHighScores gLedger eLoad).ledgerFile = some (ledgerText gLedger.highScores) ∧
      (loadHighScores { saveHighScores gLedger eLoad with highScores := [] } eLoad).highScores =
        gLedger.highScores) :=
  ⟨⟨rfl, rfl, by decide⟩,
    by simp [saveHighScores, gLedger, gStart, eLoad, ledgerText, entryText, intToChars,
      natToChars, digitChar],
    ledger_round_trip gLedger eLoad rfl rfl (by decide)⟩

/-! ## Scoring (C1) -/

/-- C1, counterexample. In the round `actsTwoPairs` two pipe pairs are
spawned in all, both birds start at score 0, no collision ends the round,
and after its 426 ticks the birds have 100 and 300 points: the condition of
`pipeCounted` holds for the same pair tick after tick and is credited each
time. The next tick credits both birds once more. -/
theorem score_once_counterexample :
    exec (resetGame gStart eLoad) actsTwoPairs = some gTwoPairs ∧
    (resetGame gStart eLoad).birds.map (fun b => b.score) = [0, 0] ∧
    actsTwoPairs.countP spawnsPair = 2 ∧
    gTwoPairs.birds.map (fun b => b.score) = [100, 300] ∧
    (update gTwoPairs eNoLoad).map (fun g => g.birds.map fun b => b.score) =
      some [101, 301] :=
  ⟨reach_twoPairs, by decide!, by decide!, by decide!, by decide!⟩

theorem wrapInt_eq (i : Int) (h1 : -2147483648 ≤ i) (h2 : i ≤ 2147483647) : wrapInt i = i := by
  unfold wrapInt
  rw [Int.emod_eq_of_lt (by omega) (by omega)]
  omega

theorem updateBird_score (b : Bird) : (updateBird b).score = b.score := rfl

theorem wrapInt_max : wrapInt (2147483647 + 1) = -2147483648 := by decide

theorem resetGame_scores (g : Game) (e : Env) (k : Int) (hk : 0 ≤ k) :
    ScoresUpTo k (resetGame g e) := by
  intro b hb
  rw [resetGame_birds] at hb
  simp only [List.mem_cons, List.mem_singleton, List.not_mem_nil, or_false] at hb
  rcases hb with rfl | rfl <;> exact ⟨le_refl _, hk⟩

theorem updateScores_scores (g : Game) (k : Int) (h : ScoresUpTo k g) (hk : k < 2147483647) :
    ScoresUpTo (k + 1) (updateScores g) := by
  intro b hb
  simp only [updateScores, List.mem_map] at hb
  obtain ⟨a, ha, rfl⟩ := hb
  obtain ⟨h0, h1⟩ := h a ha
  split
  · simp only
    rw [wrapInt_eq _ (by omega) (by omega)]
    omega
  · omega

theorem update_scores (g g' : Game) (e : Env) (k : Int) (h : ScoresUpTo k g) (h0 : 0 ≤ k)
    (hk : k < 2147483647) (hu : update g e = some g') : ScoresUpTo (k + 1) g' := by
  rw [update_eq_afterScroll] at hu
  obtain ⟨m, hm, rfl⟩ := Option.map_eq_some'.mp hu
  apply updateScores_scores _ k _ hk
  unfold checkCollisions
  split
  · exact resetGame_scores _ e k h0
  · intro b hb
    rw [(afterScroll_birds g e m hm).1] at hb
    simp only [List.mem_map] at hb
    obtain ⟨a, ha, rfl⟩ := hb
    exact h a ha

theorem processEvents_scores (g : Game) (evs : List Event) (k : Int) (h : ScoresUpTo k g) :
    ScoresUpTo k (processEvents g evs) := by
  unfold processEvents
  induction evs generalizing g with
  | nil => exact h
  | cons ev evs ih =>
    rw [List.foldl_cons]
    apply ih
    intro b hb
    rw [handleEvent_birds] at hb
    simp only [List.mem_map] at hb
    obtain ⟨a, ha, rfl⟩ := hb
    rw [jumpOn_score, jumpOn_score]
    exact h a ha

theorem exec_scores (g g' : Game) (acts : List Action) (k : Int) (h : ScoresUpTo k g)
    (h0 : 0 ≤ k) (hk : k + (ticks acts : Int) ≤ 2147483647) (hx : exec g acts = some g') :
    ScoresUpTo (k + (ticks acts : Int)) g' := by
  induction acts generalizing g k with
  | nil =>
    simp only [exec, Option.some.injEq] at hx
    subst hx
    simpa [ticks] using h
  | cons a rest ih =>
    simp only [exec] at hx
    split at hx
    · exact absurd hx (by simp)
    · rename_i g1 hg1
      cases a with
      | events polled =>
        simp only [step, Option.some.injEq] at hg1
        subst hg1
        have ht : ticks (Action.events polled :: rest) = ticks rest := by
          simp [ticks, isTick]
        rw [ht] at hk ⊢
        exact ih _ k (processEvents_scores g polled k h) h0 hk hx
      | tick e =>
        have ht : (ticks (Action.tick e :: rest) : Int) = (ticks rest : Int) + 1 := by
          simp [ticks, isTick]
        rw [ht] at hk ⊢
        have hpos : (0 : Int) ≤ (ticks rest : Int) := Int.natCast_nonneg _
        have := ih g1 (k + 1) (update_scores g g1 e k h h0 (by omega) hg1) (by omega)
          (by omega) hx
        have he : k + ((ticks rest : Int) + 1) = k + 1 + (ticks rest : Int) := by ring
        rw [he]
        exact this
      | draw =>
        simp only [step, Option.some.injEq] at hg1
        subst hg1
        have ht : ticks (Action.draw :: rest) = ticks rest := by
          simp [ticks, isTick]
        rw [ht] at hk ⊢
        exact ih (render g) k h h0 hk hx

/-- C1 (as amended). Scoring is per tick, not per pair. In every state
reached from `resetGame` after fewer than `INT_MAX` calls of `update`, each
score lies between 0 and the number of those calls; and in a further call
of `update` in which `checkCollisions` finds no intersection, each bird's
score grows by exactly one when the condition tested by `pipeCounted` holds
for it on the positions of that tick (birds moved, pipes spawned and
scrolled) and stays as it is otherwise, whatever was credited on earlier
ticks. -/
theorem score_per_tick (g0 : Game) (e0 : Env) (acts : List Action) (g : Game) (e : Env)
    (m : Game) (hx : exec (resetGame g0 e0) acts = some g) (hn : ticks acts < 2147483647)
    (hm : afterScroll g e = some m) (hc : collides m = false) :
    (∀ b ∈ g.birds, 0 ≤ b.score ∧ b.score ≤ (ticks acts : Int)) ∧
    update g e = some (updateScores m) ∧
    ∀ (i : Nat) (b : Bird), g.birds[i]? = some b →
      (updateScores m).birds[i]? =
        some { updateBird b with
          score := b.score + (if pipeCounted m.pipes (updateBird b) then 1 else 0) } := by
  have hs : ScoresUpTo (ticks acts : Int) g := by
    have := exec_scores (resetGame g0 e0) g acts 0 (resetGame_scores g0 e0 0 (le_refl _))
      (le_refl _) (by omega) hx
    simpa using this
  refine ⟨hs, ?_, ?_⟩
  · rw [update_eq_afterScroll, hm, Option.map_some']
    unfold checkCollisions
    rw [hc]
    rfl
  · intro i b hb
    have hmb := (afterScroll_birds g e m hm).1
    simp only [updateScores, hmb, List.map_map, List.getElem?_map, hb, Option.map_some',
      Function.comp_apply, Option.some.injEq]
    obtain ⟨h0, h1⟩ := hs b (List.mem_iff_getElem?.mpr ⟨i, hb⟩)
    split
    · rw [updateBird_score, wrapInt_eq _ (by omega) (by omega)]
    · simp only [add_zero]
      rfl

theorem score_per_tick_witness :
    (exec (resetGame gStart eLoad) actsTwoPairs = some gTwoPairs ∧
      ticks actsTwoPairs < 2147483647 ∧
      afterScroll gTwoPairs eNoLoad = some gTwoPairsMoved ∧
      collides gTwoPairsMoved = false) ∧
    gTwoPairsMoved.birds.map (fun b => pipeCounted gTwoPairsMoved.pipes b) = [true, true] ∧
    ((∀ b ∈ gTwoPairs.birds, 0 ≤ b.score ∧ b.score ≤ (ticks actsTwoPairs : Int)) ∧
    update gTwoPairs eNoLoad = some (updateScores gTwoPairsMoved) ∧
    ∀ (i : Nat) (b : Bird), gTwoPairs.birds[i]? = some b →
      (updateScores gTwoPairsMoved).birds[i]? =
        some { updateBird b with
          score := b.score +
            (if pipeCounted gTwoPairsMoved.pipes (updateBird b) then 1 else 0) }) :=
  ⟨⟨reach_twoPairs, by decide!, by decide!, by decide!⟩, by decide!,
    score_per_tick gStart eLoad actsTwoPairs gTwoPairs eNoLoad gTwoPairsMoved reach_twoPairs
      (by decide!) (by decide!) (by decide!)⟩

/-! ## Reset and the ledger (C8) -/

/-- C9. Scrolling stops at a retirement: the round `actsTwoPairs` ends with
the pairs at `x = -52` and `x = -50`. In the next tick a pair is spawned at
`x = 800`, the first pair moves to `-54` and is retired, and the loop is
left: the second pair stays at `-50` and the new pair at `800`, neither is
moved left by 2. -/
theorem scroll_skipped_on_retirement :
    exec (resetGame gStart eLoad) actsTwoPairs = some gTwoPairs ∧
    spawnPipe eLoad gTwoPairs.pipes =
      pieces [⟨pipeImage, pipeImage, 1234, -52⟩, ⟨pipeImage, pipeImage, 1234, -50⟩,
        ⟨pipeImage, pipeImage, 1234, 800⟩] ∧
    (update gTwoPairs eLoad).map (fun g => g.pipes) =
      some (pieces [⟨pipeImage, pipeImage, 1234, -50⟩, ⟨pipeImage, pipeImage, 1234, 800⟩]) ∧
    (update gTwoPairs eLoad).map (fun g => g.pipes.map fun p => p.getPosition.x) =
      some [-50, -50, 800, 800] :=
  ⟨reach_twoPairs, by decide!, by decide!, by decide!⟩

end Flappy
